import Mathlib

set_option maxHeartbeats 1000000

/-!
Shallow embedding of the posthog-erc20-event-plugin ingestion engine
(src/index.ts) and verification of the specification claims.

Modelling conventions:
  - JS runtime values flowing through the plugin are modelled by `Value`
    (native numbers, ethers BigNumber, strings, booleans).
  - A JS object used as a string-keyed record is modelled as `JsMap`
    (a function from keys to optional values); JS property assignment is
    `JsMap.set` (later writes win), and object spread is a left fold of sets.
  - A thrown-and-caught JS exception is modelled as `Option.none` in the
    functions that run inside the per-log try/catch of `runEveryMinute`.
  - The external collaborators (ethers Interface, Infura provider, posthog
    sink) are abstracted exactly at their call boundary: `Interface` carries
    the topic-to-fragment lookup and the raw `decodeEventLog` output,
    `ProviderEnv` carries the chain head, the log fetch, the per-hash block
    lookup (`none` = the awaited promise rejects) and whether the sink throws
    for a given event name.
-/

/-- JS runtime values observed by the plugin. `big` is an ethers BigNumber. -/
inductive Value where
  | num : Int → Value
  | big : Int → Value
  | str : String → Value
  | bool : Bool → Value
deriving DecidableEq

/-- A JS object viewed as a string-keyed partial map. -/
abbrev JsMap := String → Option Value

def JsMap.empty : JsMap := fun _ => none

/-- JS property assignment: `obj[k] = v`. -/
def JsMap.set (m : JsMap) (k : String) (v : Value) : JsMap :=
  fun k2 => if k2 = k then some v else m k2

/-- First-match association lookup, the JS `obj[k]` / `k in obj` probe for
objects whose keys are unique. -/
def lookupStr {α : Type} : List (String × α) → String → Option α
  | [], _ => none
  | p :: rest, k => if p.1 = k then some p.2 else lookupStr rest k

/-- Last-binding lookup: the value a sequence of JS property assignments
leaves at key `k` (later assignments win). -/
def lastAssoc (l : List (String × Value)) (k : String) : Option Value :=
  lookupStr l.reverse k

/-- Lower-case hex digit for a value below 16 (ethers renders lower-case). -/
def hexChar (d : Nat) : Char :=
  if d < 10 then Char.ofNat (48 + d) else Char.ofNat (97 + d - 10)

def hexVal (c : Char) : Nat :=
  if c.isDigit then c.toNat - 48
  else if 'a' ≤ c && c ≤ 'f' then c.toNat - 97 + 10
  else if 'A' ≤ c && c ≤ 'F' then c.toNat - 65 + 10
  else 0

def isHexDigit (c : Char) : Bool :=
  c.isDigit || ('a' ≤ c && c ≤ 'f') || ('A' ≤ c && c ≤ 'F')

/-- Hex digits of `n`, least significant first; fuel-based so that the
definition is structural (any fuel at least `n` is enough). -/
def natToHexAux : Nat → Nat → List Char
  | 0, _ => []
  | _ + 1, 0 => []
  | fuel + 1, n + 1 => hexChar ((n + 1) % 16) :: natToHexAux fuel ((n + 1) / 16)

/-- Hex digits of `n`, most significant first, no leading zeros (empty for 0). -/
def natToHexDigits (n : Nat) : List Char :=
  (natToHexAux n n).reverse

/-- ethers `BigNumber.toHexString` for a non-negative value: `0x`-prefixed,
even-length lower-case hex with no superfluous leading zero byte, and zero
rendered as `0x00`. -/
def toHexString (n : Nat) : String :=
  let ds := natToHexDigits n
  let ds2 := if ds.length % 2 = 1 then '0' :: ds else ds
  if ds2.isEmpty then String.mk ['0', 'x', '0', '0'] else String.mk ('0' :: 'x' :: ds2)

/-- ethers `BigNumber.toHexString`: negative values carry a leading minus. -/
def toHexStringInt (i : Int) : String :=
  if i < 0 then "-" ++ toHexString i.natAbs else toHexString i.natAbs

/-- Numeric value of a hex digit string, most significant digit first. -/
def parseHexDigits (cs : List Char) : Nat :=
  cs.foldl (fun acc c => 16 * acc + hexVal c) 0

/-- Numeric value of a decimal digit string, most significant digit first. -/
def parseDecDigits (cs : List Char) : Nat :=
  cs.foldl (fun acc c => 10 * acc + (c.toNat - 48)) 0

/-- ethers `BigNumber.from` on a non-negative numeric string: `0x`-prefixed
strings parse as hex, plain digit strings as decimal, anything else throws
(`none`). -/
def parseNumericChars (cs : List Char) : Option Int :=
  match cs with
  | [] => none
  | c0 :: rest0 =>
    match rest0 with
    | [] => if c0.isDigit then some (Int.ofNat (parseDecDigits [c0])) else none
    | c1 :: rest =>
      if c0 == '0' && c1 == 'x' then
        if !rest.isEmpty && rest.all isHexDigit then
          some (Int.ofNat (parseHexDigits rest))
        else none
      else if (c0 :: c1 :: rest).all Char.isDigit then
        some (Int.ofNat (parseDecDigits (c0 :: c1 :: rest)))
      else none

def bigNumberFromChars (cs : List Char) : Option Int :=
  match cs with
  | [] => none
  | c :: rest =>
    if c == '-' then (parseNumericChars rest).map (fun i => -i)
    else parseNumericChars cs

/-- ethers `BigNumber.from` applied to a runtime value: numbers and
BigNumbers pass through, strings are parsed, booleans throw. -/
def bigNumberFrom : Value → Option Int
  | Value.num n => some n
  | Value.big n => some n
  | Value.str s => bigNumberFromChars s.toList
  | Value.bool _ => none

def padLeftZeros (cs : List Char) (len : Nat) : List Char :=
  List.replicate (len - cs.length) '0' ++ cs

/-- Strip trailing zeros but keep at least one digit (the fraction
normalisation of ethers `formatFixed`). -/
def stripTrailingZeros (cs : List Char) : List Char :=
  match cs.reverse.dropWhile (fun c => c == '0') with
  | [] => ['0']
  | l => l.reverse

/-- ethers `formatEther`: divide by 10^18 and render as a decimal string
with a mandatory fractional part (at least one digit). -/
def formatEther (v : Int) : String :=
  let n := v.natAbs
  let whole := n / 10 ^ 18
  let frac := n % 10 ^ 18
  let fracStr := stripTrailingZeros (padLeftZeros (Nat.repr frac).toList 18)
  let s := Nat.repr whole ++ "." ++ String.mk fracStr
  if v < 0 then "-" ++ s else s

def hexPairsToBytes : List Char → List Nat
  | a :: b :: rest => (16 * hexVal a + hexVal b) :: hexPairsToBytes rest
  | _ => []

/-- ethers `parseBytes32String` of a runtime value: requires a 32-byte
`0x`-prefixed hex string whose last byte is a null terminator, and decodes
the bytes before the first null. Byte-to-character decoding is modelled for
the ASCII range (the plugin feeds it ABI `bytes32` text). Failure (`none`)
models the thrown error. -/
def parseBytes32String (v : Value) : Option Value :=
  match v with
  | Value.str s =>
    match s.toList with
    | c0 :: c1 :: rest =>
      if c0 == '0' && c1 == 'x' && rest.length == 64 && rest.all isHexDigit then
        let bytes := hexPairsToBytes rest
        if bytes.getLast? = some 0 then
          some (Value.str (String.mk ((bytes.takeWhile (fun b => b ≠ 0)).map
            (fun b => Char.ofNat b))))
        else none
      else none
    | _ => none
  | _ => none

/-- One event fragment of the contract ABI; `format` is the result of the
ethers `fragment.format()` call. -/
structure EventFragment where
  name : String
  anonymous : Bool
  format : String
deriving DecidableEq

/-- The ethers `Interface` collaborator, abstracted at the two calls the
plugin makes: topic-hash lookup and raw event-log decoding. The raw decode
result models the ethers `Result` array spread into a plain object: index
keys (decimal strings) and named keys side by side, BigNumber values still
unconverted. -/
structure Interface where
  getEvent : String → Option EventFragment
  decodeEventLog : EventFragment → String → List String → List (String × Value)

/-- A raw log as returned by `provider.getLogs`. -/
structure RawLog where
  address : String
  topics : List String
  data : String
  blockNumber : Int
  blockHash : String
deriving DecidableEq

/-- `log.topics[0]` (the empty string stands for the absent element of an
empty topics array; no fragment is looked up by it in any instantiation). -/
def headTopic (log : RawLog) : String :=
  log.topics.headD ""

/-- JS `isNaN(parseInt(key))`: true iff after optional leading spaces and an
optional sign no digit follows. -/
def parseIntIsNaN (k : String) : Bool :=
  match k.toList.dropWhile (fun c => c == ' ') with
  | [] => true
  | c :: cs =>
    if c == '+' || c == '-' then
      match cs with
      | [] => true
      | c2 :: _ => !c2.isDigit
    else !c.isDigit

/-- A positional key of the decode result: a nonempty decimal-digit string. -/
def isIndexKey (k : String) : Bool :=
  match k.toList with
  | [] => false
  | c :: cs => c.isDigit && cs.all Char.isDigit

/-- A `0x`-prefixed nonempty hexadecimal string. -/
def isHexValueString (s : String) : Bool :=
  match s.toList with
  | c0 :: c1 :: rest => c0 == '0' && c1 == 'x' && !rest.isEmpty && rest.all isHexDigit
  | _ => false

/-- The per-value conversion inside parseLog: BigNumber values are replaced
by their hex-string rendering, all other values pass through. -/
def hexifyBigNumber : Value → Value
  | Value.big n => Value.str (toHexStringInt n)
  | v => v

structure DecodedEvent where
  eventFragment : EventFragment
  name : String
  signature : String
  namedArgs : List (String × Value)
deriving DecidableEq

/-- src/index.ts `parseLog`: look up the fragment by the first topic; `none`
models the JS `null` result for a missing or anonymous fragment. Otherwise
decode and keep only the keys `key` with `isNaN(parseInt(key))`, converting
BigNumber values to hex strings. -/
def parseLog (ci : Interface) (log : RawLog) : Option DecodedEvent :=
  match ci.getEvent (headTopic log) with
  | none => none
  | some fragment =>
    if fragment.anonymous then none
    else
      let args := ci.decodeEventLog fragment log.data log.topics
      some
        { eventFragment := fragment
          name := fragment.name
          signature := fragment.format
          namedArgs :=
            (args.filter (fun kv => parseIntIsNaN kv.1)).map
              (fun kv => (kv.1, hexifyBigNumber kv.2)) }

/-- One entry of the event parsing instructions attachment. Both fields are
optional at runtime (the JSON may omit them); the JS truthiness checks of
the source are modelled accordingly. -/
structure ArgInstruction where
  isDistinctId : Option Bool
  argType : Option String
deriving DecidableEq

abbrev EventParsingInstruction := List (String × List (String × ArgInstruction))

/-- Lines 157-165 of src/index.ts: the argType coercion chain. Only the
strings eth, string and number are handled; a falsy (absent or empty)
argType and every other string leave the value unchanged. `none` models a
thrown conversion error (caught by the per-log catch). The number branch
models `BigNumber.toNumber`, which throws above 2^53. -/
def coerceArgValue (inst : ArgInstruction) (v : Value) : Option Value :=
  match inst.argType with
  | none => some v
  | some t =>
    if t == "" then some v
    else if t == "eth" then (bigNumberFrom v).map (fun i => Value.str (formatEther i))
    else if t == "string" then parseBytes32String v
    else if t == "number" then
      (bigNumberFrom v).bind (fun i => if i.natAbs < 2 ^ 53 then some (Value.num i) else none)
    else some v

/-- Lines 154-170 of src/index.ts: process one instructed argument — coerce,
optionally duplicate under distinct_id, then always write under the
argument name. -/
def applyArgInstruction (inst : ArgInstruction) (argName : String) (argValue : Value)
    (eventData : JsMap) : Option JsMap :=
  match coerceArgValue inst argValue with
  | none => none
  | some coerced =>
    let d := if inst.isDistinctId.getD false
             then JsMap.set eventData "distinct_id" coerced
             else eventData
    some (JsMap.set d argName coerced)

/-- Lines 149-173 of src/index.ts: apply the optional instruction set for
this event to every named argument, in the iteration order of the decoded
argument mapping. A throw inside the loop (`none`) aborts the whole
transform of this log. -/
def applyParsingInstructions (instrs : Option EventParsingInstruction) (eventName : String)
    (namedArgs : List (String × Value)) (eventData : JsMap) : Option JsMap :=
  match instrs with
  | none => some eventData
  | some epi =>
    match lookupStr epi eventName with
    | none => some eventData
    | some eventInstr =>
      namedArgs.foldlM
        (fun d kv =>
          match lookupStr eventInstr kv.1 with
          | none => some d
          | some inst => applyArgInstruction inst kv.1 kv.2 d)
        eventData

/-- Lines 141-146 of src/index.ts: seed the base fields, then spread the
named arguments over them (the spread is a sequence of property writes, so
an argument with a base-field name overwrites the seeded value). -/
def buildEventData (blockTimestamp : Int) (log : RawLog)
    (namedArgs : List (String × Value)) : JsMap :=
  namedArgs.foldl (fun m kv => JsMap.set m kv.1 kv.2)
    (JsMap.set
      (JsMap.set
        (JsMap.set JsMap.empty "$timestamp" (Value.num blockTimestamp))
        "blockNumber" (Value.num log.blockNumber))
      "blockHash" (Value.str log.blockHash))

/-- The body of the per-log try block (lines 139-174): decode, build the
event data, apply the parsing instructions, and report the capture payload.
`none` is the caught-exception path; it covers the TypeError raised when
`parseLog` returned null and the caller dereferences `parsedLog.namedArgs`,
as well as any coercion failure. -/
def processLog (ci : Interface) (instrs : Option EventParsingInstruction)
    (blockTimestamp : Int) (log : RawLog) : Option (String × JsMap) :=
  match parseLog ci log with
  | none => none
  | some parsedLog =>
    let eventData := buildEventData blockTimestamp log parsedLog.namedArgs
    match applyParsingInstructions instrs parsedLog.name parsedLog.namedArgs eventData with
    | none => none
    | some d => some (parsedLog.name, d)

/-- The external collaborators of one cycle: the chain head, the log fetch
for a window, the block-by-hash timestamp lookup (`none` = the awaited call
rejects), and whether the sink throws for a given event name. -/
structure ProviderEnv where
  latestBlockNumber : Int
  getLogs : Option Int → Int → List RawLog
  getBlock : String → Option Int
  captureThrows : String → Bool

/-- The mutable state of the for-loop over logs: the per-cycle timestamp
cache, the trace of provider getBlock calls, the trace of sink captures and
the number of caught-and-logged per-log errors. -/
structure LoopState where
  blockTimestamps : List (String × Int)
  fetched : List String
  captures : List (String × JsMap)
  errors : Nat

/-- The timestamp the provider would report for the block of this log. -/
def tsOf (env : ProviderEnv) (l : RawLog) : Int :=
  (env.getBlock l.blockHash).getD 0

/-- What one log contributes to the sink: its processed record unless the
log fails in decode or transform, or the sink throws for it. -/
def emittedOf (env : ProviderEnv) (ci : Interface) (instrs : Option EventParsingInstruction)
    (l : RawLog) : Option (String × JsMap) :=
  match processLog ci instrs (tsOf env l) l with
  | none => none
  | some nd => if env.captureThrows nd.1 then none else some nd

/-- The try/catch body for one log once its timestamp is known: on success
the capture is recorded, on any caught failure the error count grows and the
loop state is otherwise untouched. -/
def stepLog (env : ProviderEnv) (ci : Interface) (instrs : Option EventParsingInstruction)
    (bt : Int) (log : RawLog) (st : LoopState) : LoopState :=
  match processLog ci instrs bt log with
  | none => { st with errors := st.errors + 1 }
  | some nd =>
    if env.captureThrows nd.1 then { st with errors := st.errors + 1 }
    else { st with captures := st.captures ++ [nd] }

/-- Lines 128-178 of src/index.ts: the for-loop. The timestamp is resolved
through the cache before the try block; a rejected getBlock therefore
escapes the loop (`Except.error` carries the loop state at the abort). -/
def runLoop (env : ProviderEnv) (ci : Interface) (instrs : Option EventParsingInstruction) :
    List RawLog → LoopState → Except LoopState LoopState
  | [], st => Except.ok st
  | log :: rest, st =>
    match lookupStr st.blockTimestamps log.blockHash with
    | some bt => runLoop env ci instrs rest (stepLog env ci instrs bt log st)
    | none =>
      match env.getBlock log.blockHash with
      | none => Except.error st
      | some bt =>
        runLoop env ci instrs rest
          (stepLog env ci instrs bt log
            { st with
              blockTimestamps := st.blockTimestamps ++ [(log.blockHash, bt)]
              fetched := st.fetched ++ [log.blockHash] })

/-- The externally persisted plugin state across cycles: the storage
checkpoint and the mutable global `blockNumberToIngestFrom` (assigned only
inside the clamp branch, hence carried over between cycles). -/
structure PluginState where
  lastIngestedBlockNumber : Option Int
  blockNumberToIngestFrom : Option Int
deriving DecidableEq

/-- Lines 109-121 of src/index.ts: the fromBlock the cycle will query. The
checkpoint (defaulted to the head) feeds only the clamp test; outside the
clamp branch the global keeps its previous value. -/
def computeBlockNumberToIngestFrom (st : PluginState) (latestBlockNumber : Int) : Option Int :=
  if latestBlockNumber - st.lastIngestedBlockNumber.getD latestBlockNumber > 1000 then
    some (latestBlockNumber - 1000)
  else
    st.blockNumberToIngestFrom

/-- Everything one `runEveryMinute` invocation did: the queried window, the
clamp warning, the final loop state (captures, fetches, errors), whether the
cycle ran to completion, and the persisted state afterwards. -/
structure CycleOutcome where
  queriedFromBlock : Option Int
  queriedToBlock : Int
  warned : Bool
  loopState : LoopState
  completed : Bool
  newState : PluginState

/-- src/index.ts `runEveryMinute`: query the head, read the checkpoint
(defaulting to the head), clamp, fetch the logs, run the loop with a fresh
timestamp cache, and — only if the loop was not aborted by a rejected
getBlock — write the checkpoint to the head queried at the start. -/
def runEveryMinute (env : ProviderEnv) (ci : Interface)
    (instrs : Option EventParsingInstruction) (st : PluginState) : CycleOutcome :=
  let latestBlockNumber := env.latestBlockNumber
  let lastIngestedBlockNumber := st.lastIngestedBlockNumber.getD latestBlockNumber
  let warned := decide (latestBlockNumber - lastIngestedBlockNumber > 1000)
  let blockNumberToIngestFrom := computeBlockNumberToIngestFrom st latestBlockNumber
  let logs := env.getLogs blockNumberToIngestFrom latestBlockNumber
  match runLoop env ci instrs logs
      { blockTimestamps := [], fetched := [], captures := [], errors := 0 } with
  | Except.ok ls =>
    { queriedFromBlock := blockNumberToIngestFrom
      queriedToBlock := latestBlockNumber
      warned := warned
      loopState := ls
      completed := true
      newState :=
        { lastIngestedBlockNumber := some latestBlockNumber
          blockNumberToIngestFrom := blockNumberToIngestFrom } }
  | Except.error ls =>
    { queriedFromBlock := blockNumberToIngestFrom
      queriedToBlock := latestBlockNumber
      warned := warned
      loopState := ls
      completed := false
      newState :=
        { lastIngestedBlockNumber := st.lastIngestedBlockNumber
          blockNumberToIngestFrom := blockNumberToIngestFrom } }

/-- The log list a cycle starting from state `st` fetches. -/
def logsOf (env : ProviderEnv) (st : PluginState) : List RawLog :=
  env.getLogs (computeBlockNumberToIngestFrom st env.latestBlockNumber) env.latestBlockNumber

/-- The block hashes the loop fetches from the provider, given the hashes
already cached: first occurrences only. -/
def newFetches : List String → List RawLog → List String
  | _, [] => []
  | seen, l :: rest =>
    if l.blockHash ∈ seen then newFetches seen rest
    else l.blockHash :: newFetches (seen ++ [l.blockHash]) rest

def countOcc (h : String) : List String → Nat
  | [] => 0
  | x :: xs => (if x = h then 1 else 0) + countOcc h xs

/-! ### Concrete instantiations used to exercise the model -/

/-- An interface that knows no event at all. -/
def ifaceEmpty : Interface :=
  { getEvent := fun _ => none, decodeEventLog := fun _ _ _ => [] }

def envC1 : ProviderEnv :=
  { latestBlockNumber := 1000, getLogs := fun _ _ => [], getBlock := fun _ => none,
    captureThrows := fun _ => false }

def stC1 : PluginState :=
  { lastIngestedBlockNumber := some 500, blockNumberToIngestFrom := none }

def logC3 : RawLog :=
  { address := "0xcontract", topics := ["0xdeadbeef"], data := "0x", blockNumber := 5,
    blockHash := "0xh1" }

def envC3 : ProviderEnv :=
  { latestBlockNumber := 10, getLogs := fun _ _ => [logC3], getBlock := fun _ => some 7,
    captureThrows := fun _ => false }

def stC3 : PluginState :=
  { lastIngestedBlockNumber := some 10, blockNumberToIngestFrom := some 9 }

def fragC4 : EventFragment :=
  { name := "Transfer", anonymous := false, format := "Transfer(address,uint256)" }

def ifaceC4 : Interface :=
  { getEvent := fun t => if t = "0xt1" then some fragC4 else none
    decodeEventLog := fun _ _ _ => [("to", Value.str "0xabc")] }

def logC4bad : RawLog :=
  { address := "0xc", topics := ["0xbad"], data := "0x", blockNumber := 6, blockHash := "0xh1" }

def logC4good : RawLog :=
  { address := "0xc", topics := ["0xt1"], data := "0x", blockNumber := 7, blockHash := "0xh2" }

def envC4 : ProviderEnv :=
  { latestBlockNumber := 20, getLogs := fun _ _ => [logC4bad, logC4good],
    getBlock := fun _ => some 99, captureThrows := fun _ => false }

def stC4 : PluginState :=
  { lastIngestedBlockNumber := some 18, blockNumberToIngestFrom := some 18 }

def fragC5 : EventFragment :=
  { name := "Transfer", anonymous := false, format := "Transfer(address,uint256)" }

def ifaceC5 : Interface :=
  { getEvent := fun t => if t = "0xtransfer" then some fragC5 else none
    decodeEventLog := fun _ _ _ =>
      [("0", Value.str "0xabc"), ("1", Value.big 5),
       ("to", Value.str "0xabc"), ("amount", Value.big 5)] }

def logC5 : RawLog :=
  { address := "0xc", topics := ["0xtransfer"], data := "0xdata", blockNumber := 3,
    blockHash := "0xh5" }

def decodedC5 : DecodedEvent :=
  { eventFragment := fragC5, name := "Transfer", signature := "Transfer(address,uint256)",
    namedArgs := [("to", Value.str "0xabc"), ("amount", Value.str "0x05")] }

def instC7 : ArgInstruction := { isDistinctId := some true, argType := none }

def logC8a : RawLog :=
  { address := "0xc", topics := ["0xt"], data := "0x01", blockNumber := 1, blockHash := "0xh1" }

def logC8b : RawLog :=
  { address := "0xc", topics := ["0xt"], data := "0x02", blockNumber := 1, blockHash := "0xh1" }

def logC8c : RawLog :=
  { address := "0xc", topics := ["0xt"], data := "0x03", blockNumber := 2, blockHash := "0xh2" }

def envC8 : ProviderEnv :=
  { latestBlockNumber := 30, getLogs := fun _ _ => [logC8a, logC8b, logC8c],
    getBlock := fun h => if h = "0xh1" then some 11 else some 12,
    captureThrows := fun _ => false }

def stC8 : PluginState :=
  { lastIngestedBlockNumber := some 29, blockNumberToIngestFrom := some 29 }

def logC9 : RawLog :=
  { address := "0xc", topics := ["0xt"], data := "0x", blockNumber := 4, blockHash := "0xh9" }

def envC9 : ProviderEnv :=
  { latestBlockNumber := 40, getLogs := fun _ _ => [logC9], getBlock := fun _ => none,
    captureThrows := fun _ => false }

def stC9 : PluginState :=
  { lastIngestedBlockNumber := some 3, blockNumberToIngestFrom := some 3 }

def logC10 : RawLog :=
  { address := "0xc", topics := ["0xt"], data := "0x", blockNumber := 5, blockHash := "0xhash10" }

/-! ### Helper lemmas -/

theorem lookupStr_mem {α : Type} :
    ∀ (l : List (String × α)) (k : String) (v : α),
      lookupStr l k = some v → (k, v) ∈ l := by
  intro l
  induction l with
  | nil => intro k v h; simp [lookupStr] at h
  | cons p rest ih =>
    intro k v h
    rw [lookupStr] at h
    by_cases hk : p.1 = k
    · rw [if_pos hk] at h
      have hkv : (k, v) = p := by
        cases p
        simp_all
      exact List.mem_cons.mpr (Or.inl hkv)
    · rw [if_neg hk] at h
      exact List.mem_cons_of_mem _ (ih k v h)

theorem lookupStr_none_not_mem {α : Type} :
    ∀ (l : List (String × α)) (k : String),
      lookupStr l k = none → k ∉ l.map (fun p => p.1) := by
  intro l
  induction l with
  | nil => intro k _; simp
  | cons p rest ih =>
    intro k h
    rw [lookupStr] at h
    by_cases hk : p.1 = k
    · rw [if_pos hk] at h; cases h
    · rw [if_neg hk] at h
      simp only [List.map_cons, List.mem_cons]
      rintro (h1 | h2)
      · exact hk h1.symm
      · exact ih k h h2

theorem lookupStr_append {α : Type} :
    ∀ (a b : List (String × α)) (k : String),
      lookupStr (a ++ b) k =
        match lookupStr a k with
        | some v => some v
        | none => lookupStr b k := by
  intro a
  induction a with
  | nil => intro b k; simp [lookupStr]
  | cons p rest ih =>
    intro b k
    rw [List.cons_append, lookupStr, lookupStr]
    by_cases hk : p.1 = k
    · rw [if_pos hk, if_pos hk]
    · rw [if_neg hk, if_neg hk, ih]

theorem hexVal_hexChar : ∀ d : Nat, d < 16 → hexVal (hexChar d) = d := by
  intro d h
  interval_cases d <;> decide

theorem isHexDigit_hexChar : ∀ d : Nat, d < 16 → isHexDigit (hexChar d) = true := by
  intro d h
  interval_cases d <;> decide

theorem natToHexAux_all_hex :
    ∀ (fuel n : Nat), ∀ c ∈ natToHexAux fuel n, isHexDigit c = true := by
  intro fuel
  induction fuel with
  | zero => intro n c hc; simp [natToHexAux] at hc
  | succ fuel ih =>
    intro n c hc
    match n with
    | 0 => simp [natToHexAux] at hc
    | m + 1 =>
      rw [natToHexAux] at hc
      rcases List.mem_cons.mp hc with h | h
      · subst h
        exact isHexDigit_hexChar _ (Nat.mod_lt _ (by norm_num))
      · exact ih _ c h

theorem natToHexAux_foldr :
    ∀ (fuel n : Nat), n ≤ fuel →
      (natToHexAux fuel n).foldr (fun c acc => 16 * acc + hexVal c) 0 = n := by
  intro fuel
  induction fuel with
  | zero =>
    intro n hn
    interval_cases n
    simp [natToHexAux]
  | succ fuel ih =>
    intro n hn
    match n with
    | 0 => simp [natToHexAux]
    | m + 1 =>
      rw [natToHexAux, List.foldr_cons]
      have hdiv : (m + 1) / 16 ≤ fuel := by
        have h1 : (m + 1) / 16 < m + 1 := Nat.div_lt_self (Nat.succ_pos m) (by norm_num)
        omega
      rw [ih _ hdiv, hexVal_hexChar _ (Nat.mod_lt _ (by norm_num))]
      exact Nat.div_add_mod (m + 1) 16

theorem natToHexAux_eq_nil :
    ∀ (fuel n : Nat), n ≤ fuel → (natToHexAux fuel n = [] ↔ n = 0) := by
  intro fuel
  induction fuel with
  | zero =>
    intro n hn
    interval_cases n
    simp [natToHexAux]
  | succ fuel _ =>
    intro n _
    match n with
    | 0 => simp [natToHexAux]
    | m + 1 => simp [natToHexAux]

theorem parseHexDigits_natToHexDigits (n : Nat) :
    parseHexDigits (natToHexDigits n) = n := by
  unfold parseHexDigits natToHexDigits
  rw [List.foldl_reverse]
  exact natToHexAux_foldr n n (le_refl n)

theorem parseHexDigits_cons_zero (cs : List Char) :
    parseHexDigits ('0' :: cs) = parseHexDigits cs := by
  unfold parseHexDigits
  rw [List.foldl_cons]
  congr 1

theorem toHexString_spec (n : Nat) :
    ∃ l, l ≠ [] ∧ (∀ c ∈ l, isHexDigit c = true) ∧ parseHexDigits l = n ∧
      toHexString n = String.mk ('0' :: 'x' :: l) := by
  by_cases hn : n = 0
  · subst hn
    exact ⟨['0', '0'], by decide, by decide, by decide, by decide⟩
  · have hauxne : natToHexDigits n ≠ [] := by
      intro h
      exact hn ((natToHexAux_eq_nil n n (le_refl n)).mp (by
        have := congrArg List.reverse h
        simpa [natToHexDigits] using this))
    have hall : ∀ c ∈ natToHexDigits n, isHexDigit c = true := by
      intro c hc
      exact natToHexAux_all_hex n n c (List.mem_reverse.mp hc)
    have hparse := parseHexDigits_natToHexDigits n
    by_cases hpad : (natToHexDigits n).length % 2 = 1
    · refine ⟨'0' :: natToHexDigits n, by simp, ?_, ?_, ?_⟩
      · intro c hc
        rcases List.mem_cons.mp hc with h | h
        · subst h; decide
        · exact hall c h
      · rw [parseHexDigits_cons_zero]; exact hparse
      · unfold toHexString
        simp only [hpad, if_true, List.isEmpty_cons, ite_true, ite_false]
        rfl
    · refine ⟨natToHexDigits n, hauxne, hall, hparse, ?_⟩
      unfold toHexString
      simp only [hpad, ite_false]
      have hie : (natToHexDigits n).isEmpty = false := by
        cases hd : natToHexDigits n with
        | nil => exact absurd hd hauxne
        | cons a as => rfl
      simp only [hie]
      rfl

theorem toHexString_hexValueString (n : Nat) :
    isHexValueString (toHexString n) = true := by
  obtain ⟨l, hne, hhex, _, heq⟩ := toHexString_spec n
  rw [heq]
  have htl : (String.mk ('0' :: 'x' :: l)).toList = '0' :: 'x' :: l := rfl
  rw [isHexValueString, htl]
  have hie : l.isEmpty = false := by
    cases hd : l with
    | nil => exact absurd hd hne
    | cons a as => rfl
  simp [hie, List.all_eq_true]
  exact hhex

theorem bigNumberFromChars_hex (l : List Char) (hne : l ≠ [])
    (hhex : ∀ c ∈ l, isHexDigit c = true) :
    bigNumberFromChars ('0' :: 'x' :: l) = some (Int.ofNat (parseHexDigits l)) := by
  have hie : l.isEmpty = false := by
    cases hd : l with
    | nil => exact absurd hd hne
    | cons a as => rfl
  rw [bigNumberFromChars]
  simp only [show (('0' : Char) == '-') = false from rfl, Bool.false_eq_true, if_false]
  rw [parseNumericChars]
  simp [hie, List.all_eq_true]
  exact hhex

theorem bigNumberFrom_toHexString (n : Nat) :
    bigNumberFrom (Value.str (toHexString n)) = some (Int.ofNat n) := by
  obtain ⟨l, hne, hhex, hparse, heq⟩ := toHexString_spec n
  rw [heq]
  show bigNumberFromChars (String.mk ('0' :: 'x' :: l)).toList = some (Int.ofNat n)
  have htl : (String.mk ('0' :: 'x' :: l)).toList = '0' :: 'x' :: l := rfl
  rw [htl, bigNumberFromChars_hex l hne hhex, hparse]

theorem parseIntIsNaN_not_index (k : String) (h : parseIntIsNaN k = true) :
    isIndexKey k = false := by
  cases hl : k.toList with
  | nil => rw [isIndexKey, hl]
  | cons c cs =>
    rw [isIndexKey, hl]
    show (c.isDigit && cs.all Char.isDigit) = false
    by_cases hd : c.isDigit = true
    · exfalso
      rw [parseIntIsNaN, hl] at h
      have hsp : (c == ' ') = false := by
        cases hb : c == ' '
        · rfl
        · exact absurd hd (by rw [eq_of_beq hb]; decide)
      have hdw : (c :: cs).dropWhile (fun x => x == ' ') = c :: cs := by
        rw [List.dropWhile_cons]
        simp [hsp]
      rw [hdw] at h
      have hplus : (c == '+') = false := by
        cases hb : c == '+'
        · rfl
        · exact absurd hd (by rw [eq_of_beq hb]; decide)
      have hminus : (c == '-') = false := by
        cases hb : c == '-'
        · rfl
        · exact absurd hd (by rw [eq_of_beq hb]; decide)
      simp [hplus, hminus, hd] at h
    · have hd2 : c.isDigit = false := by
        cases hdd : c.isDigit
        · rfl
        · exact absurd hdd hd
      simp [hd2]

theorem formatEther_wei (n : Nat) :
    formatEther ((n : Int) * 10 ^ 18) = Nat.repr n ++ ".0" := by
  have hcast : ((n : Int) * 10 ^ 18) = ((n * 10 ^ 18 : Nat) : Int) := by push_cast; ring
  simp only [formatEther]
  rw [hcast, Int.natAbs_ofNat]
  have hneg : ¬ (((n * 10 ^ 18 : Nat) : Int) < 0) := by
    rw [not_lt]
    exact Int.natCast_nonneg _
  rw [if_neg hneg]
  rw [Nat.mul_div_cancel _ (by positivity), Nat.mul_mod_left]
  have hfrac : stripTrailingZeros (padLeftZeros (Nat.repr 0).toList 18) = ['0'] := by decide
  rw [hfrac]
  apply String.ext
  simp [String.data_append]

theorem foldl_set_lookup :
    ∀ (args : List (String × Value)) (m : JsMap) (k : String),
      (args.foldl (fun m2 kv => JsMap.set m2 kv.1 kv.2) m) k =
        match lookupStr args.reverse k with
        | some v => some v
        | none => m k := by
  intro args
  induction args with
  | nil => intro m k; simp [lookupStr]
  | cons kv rest ih =>
    intro m k
    rw [List.foldl_cons, ih, List.reverse_cons, lookupStr_append]
    cases hfound : lookupStr rest.reverse k with
    | some v => rfl
    | none =>
      show JsMap.set m kv.1 kv.2 k = _
      by_cases hk : kv.1 = k
      · subst hk
        simp [JsMap.set, lookupStr]
      · simp [JsMap.set, lookupStr, hk, Ne.symm hk]

theorem stepLog_blockTimestamps (env : ProviderEnv) (ci : Interface)
    (instrs : Option EventParsingInstruction) (bt : Int) (log : RawLog) (st : LoopState) :
    (stepLog env ci instrs bt log st).blockTimestamps = st.blockTimestamps := by
  rw [stepLog]
  split
  · rfl
  · split <;> rfl

theorem stepLog_spec (env : ProviderEnv) (ci : Interface)
    (instrs : Option EventParsingInstruction) (log : RawLog) (st : LoopState) :
    stepLog env ci instrs (tsOf env log) log st =
      { blockTimestamps := st.blockTimestamps
        fetched := st.fetched
        captures := st.captures ++ (emittedOf env ci instrs log).toList
        errors := st.errors + (if (emittedOf env ci instrs log).isNone then 1 else 0) } := by
  rw [stepLog, emittedOf]
  cases hp : processLog ci instrs (tsOf env log) log with
  | none => cases st; simp
  | some nd => cases hct : env.captureThrows nd.1 <;> (cases st; simp [hct])

theorem runLoop_ok (env : ProviderEnv) (ci : Interface)
    (instrs : Option EventParsingInstruction) :
    ∀ (logs : List RawLog) (st : LoopState),
      (∀ l ∈ logs, (env.getBlock l.blockHash).isSome = true) →
      (∀ p ∈ st.blockTimestamps, env.getBlock p.1 = some p.2) →
      ∃ ls, runLoop env ci instrs logs st = Except.ok ls
        ∧ ls.captures = st.captures ++ logs.filterMap (emittedOf env ci instrs)
        ∧ ls.errors = st.errors +
            (logs.filter (fun l => (emittedOf env ci instrs l).isNone)).length
        ∧ ls.fetched = st.fetched ++
            newFetches (st.blockTimestamps.map (fun p => p.1)) logs := by
  intro logs
  induction logs with
  | nil =>
    intro st _ _
    exact ⟨st, rfl, by simp, by simp, by simp [newFetches]⟩
  | cons log rest ih =>
    intro st hts hinv
    have hlog : (env.getBlock log.blockHash).isSome = true := hts log (List.mem_cons_self _ _)
    have hts2 : ∀ l ∈ rest, (env.getBlock l.blockHash).isSome = true :=
      fun l hl => hts l (List.mem_cons_of_mem _ hl)
    cases hc : lookupStr st.blockTimestamps log.blockHash with
    | some bt =>
      have hgb : env.getBlock log.blockHash = some bt :=
        hinv _ (lookupStr_mem _ _ _ hc)
      have hbt : bt = tsOf env log := by rw [tsOf, hgb]; rfl
      subst hbt
      have hinv2 : ∀ p ∈ (stepLog env ci instrs (tsOf env log) log st).blockTimestamps,
          env.getBlock p.1 = some p.2 := by
        rw [stepLog_blockTimestamps]; exact hinv
      obtain ⟨ls, hrun, hcap, herr, hfetch⟩ :=
        ih (stepLog env ci instrs (tsOf env log) log st) hts2 hinv2
      refine ⟨ls, ?_, ?_, ?_, ?_⟩
      · simp only [runLoop, hc]; exact hrun
      · rw [hcap, stepLog_spec]
        cases hE : emittedOf env ci instrs log <;> simp [List.filterMap_cons, hE]
      · rw [herr, stepLog_spec]
        cases hE : emittedOf env ci instrs log <;> simp [List.filter_cons, hE] <;> omega
      · rw [hfetch, stepLog_spec]
        have hmem : log.blockHash ∈ st.blockTimestamps.map (fun p => p.1) :=
          List.mem_map_of_mem _ (lookupStr_mem _ _ _ hc)
        simp [newFetches, hmem]
    | none =>
      cases hgb : env.getBlock log.blockHash with
      | none => rw [hgb] at hlog; simp at hlog
      | some bt =>
        have hbt : bt = tsOf env log := by rw [tsOf, hgb]; rfl
        subst hbt
        have hinv2 : ∀ p ∈ (stepLog env ci instrs (tsOf env log) log
              { st with
                blockTimestamps := st.blockTimestamps ++ [(log.blockHash, tsOf env log)]
                fetched := st.fetched ++ [log.blockHash] }).blockTimestamps,
            env.getBlock p.1 = some p.2 := by
          rw [stepLog_blockTimestamps]
          intro p hp
          rcases List.mem_append.mp hp with h1 | h2
          · exact hinv p h1
          · rw [List.mem_singleton] at h2
            subst h2
            rw [hgb]
        obtain ⟨ls, hrun, hcap, herr, hfetch⟩ := ih _ hts2 hinv2
        refine ⟨ls, ?_, ?_, ?_, ?_⟩
        · simp only [runLoop, hc, hgb]; exact hrun
        · rw [hcap, stepLog_spec]
          cases hE : emittedOf env ci instrs log <;> simp [List.filterMap_cons, hE]
        · rw [herr, stepLog_spec]
          cases hE : emittedOf env ci instrs log <;> simp [List.filter_cons, hE] <;> omega
        · rw [hfetch, stepLog_spec]
          have hnmem : log.blockHash ∉ st.blockTimestamps.map (fun p => p.1) :=
            lookupStr_none_not_mem _ _ hc
          simp [newFetches, hnmem, List.map_append]

theorem runLoop_abort (env : ProviderEnv) (ci : Interface)
    (instrs : Option EventParsingInstruction) :
    ∀ (logs : List RawLog) (st : LoopState),
      (∃ l ∈ logs, env.getBlock l.blockHash = none) →
      (∀ p ∈ st.blockTimestamps, env.getBlock p.1 = some p.2) →
      ∃ ls, runLoop env ci instrs logs st = Except.error ls := by
  intro logs
  induction logs with
  | nil =>
    intro st hab _
    obtain ⟨l, hl, _⟩ := hab
    simp at hl
  | cons log rest ih =>
    intro st hab hinv
    cases hc : lookupStr st.blockTimestamps log.blockHash with
    | some bt =>
      have hgb : env.getBlock log.blockHash = some bt := hinv _ (lookupStr_mem _ _ _ hc)
      have hab2 : ∃ l ∈ rest, env.getBlock l.blockHash = none := by
        obtain ⟨l, hl, hnone⟩ := hab
        rcases List.mem_cons.mp hl with h1 | h2
        · subst h1; rw [hgb] at hnone; cases hnone
        · exact ⟨l, h2, hnone⟩
      obtain ⟨ls, hrun⟩ := ih (stepLog env ci instrs bt log st) hab2
        (by rw [stepLog_blockTimestamps]; exact hinv)
      exact ⟨ls, by simp only [runLoop, hc]; exact hrun⟩
    | none =>
      cases hgb : env.getBlock log.blockHash with
      | none => exact ⟨st, by simp only [runLoop, hc, hgb]⟩
      | some bt =>
        have hab2 : ∃ l ∈ rest, env.getBlock l.blockHash = none := by
          obtain ⟨l, hl, hnone⟩ := hab
          rcases List.mem_cons.mp hl with h1 | h2
          · subst h1; rw [hgb] at hnone; cases hnone
          · exact ⟨l, h2, hnone⟩
        have hinv2 : ∀ p ∈ (stepLog env ci instrs bt log
              { st with
                blockTimestamps := st.blockTimestamps ++ [(log.blockHash, bt)]
                fetched := st.fetched ++ [log.blockHash] }).blockTimestamps,
            env.getBlock p.1 = some p.2 := by
          rw [stepLog_blockTimestamps]
          intro p hp
          rcases List.mem_append.mp hp with h1 | h2
          · exact hinv p h1
          · rw [List.mem_singleton] at h2
            subst h2
            exact hgb
        obtain ⟨ls, hrun⟩ := ih _ hab2 hinv2
        exact ⟨ls, by simp only [runLoop, hc, hgb]; exact hrun⟩

theorem countOcc_newFetches :
    ∀ (logs : List RawLog) (seen : List String) (h : String),
      countOcc h (newFetches seen logs) =
        if h ∈ logs.map (fun l => l.blockHash) ∧ h ∉ seen then 1 else 0 := by
  intro logs
  induction logs with
  | nil => intro seen h; simp [newFetches, countOcc]
  | cons log rest ih =>
    intro seen h
    by_cases hmem : log.blockHash ∈ seen
    · rw [newFetches, if_pos hmem, ih]
      by_cases heq : h = log.blockHash
      · subst heq
        simp [hmem]
      · simp only [List.map_cons, List.mem_cons]
        split_ifs <;> first | rfl | (exfalso; tauto)
    · rw [newFetches, if_neg hmem, countOcc, ih]
      by_cases heq : log.blockHash = h
      · subst heq
        simp [hmem, List.mem_append]
      · have heq2 : ¬ h = log.blockHash := fun hh => heq hh.symm
        simp only [List.map_cons, List.mem_cons, List.mem_append, List.mem_singleton,
          if_neg heq]
        split_ifs <;> first | omega | (exfalso; tauto)

theorem runEveryMinute_ok (env : ProviderEnv) (ci : Interface)
    (instrs : Option EventParsingInstruction) (st : PluginState)
    (hts : ∀ l ∈ logsOf env st, (env.getBlock l.blockHash).isSome = true) :
    (runEveryMinute env ci instrs st).completed = true
    ∧ (runEveryMinute env ci instrs st).newState.lastIngestedBlockNumber
        = some env.latestBlockNumber
    ∧ (runEveryMinute env ci instrs st).newState.blockNumberToIngestFrom
        = computeBlockNumberToIngestFrom st env.latestBlockNumber
    ∧ (runEveryMinute env ci instrs st).queriedFromBlock
        = computeBlockNumberToIngestFrom st env.latestBlockNumber
    ∧ (runEveryMinute env ci instrs st).queriedToBlock = env.latestBlockNumber
    ∧ (runEveryMinute env ci instrs st).loopState.captures
        = (logsOf env st).filterMap (emittedOf env ci instrs)
    ∧ (runEveryMinute env ci instrs st).loopState.errors
        = ((logsOf env st).filter (fun l => (emittedOf env ci instrs l).isNone)).length
    ∧ (runEveryMinute env ci instrs st).loopState.fetched = newFetches [] (logsOf env st) := by
  obtain ⟨ls, hrun, hcap, herr, hfetch⟩ :=
    runLoop_ok env ci instrs (logsOf env st)
      { blockTimestamps := [], fetched := [], captures := [], errors := 0 } hts (by simp)
  have hrun2 : runLoop env ci instrs
      (env.getLogs (computeBlockNumberToIngestFrom st env.latestBlockNumber)
        env.latestBlockNumber)
      { blockTimestamps := [], fetched := [], captures := [], errors := 0 }
      = Except.ok ls := hrun
  simp only [runEveryMinute]
  rw [hrun2]
  refine ⟨rfl, rfl, rfl, rfl, rfl, ?_, ?_, ?_⟩
  · simpa using hcap
  · simpa using herr
  · simpa using hfetch

/-! ### Claim theorems -/

/-- Claim C1 (code bug evidence). The claim states the fetch window is
always `[max(lastIngestedBlockNumber, latestBlockNumber - 1000),
latestBlockNumber]`. The code assigns `blockNumberToIngestFrom` only inside
the clamp branch, so with checkpoint 500 and head 1000 (no clamp) the cycle
queries from the stale global (here: unset), not from the checkpoint 500
demanded by the claim; the clamped branch itself is computed as claimed. -/
theorem fromBlock_ignores_checkpoint :
    computeBlockNumberToIngestFrom stC1 1000 = none
    ∧ (runEveryMinute envC1 ifaceEmpty none stC1).queriedFromBlock = none
    ∧ (none : Option Int) ≠ some (max 500 (1000 - 1000))
    ∧ computeBlockNumberToIngestFrom
        { lastIngestedBlockNumber := some 0, blockNumberToIngestFrom := none } 2000
        = some 1000 := by
  refine ⟨by decide, rfl, by decide, by decide⟩

/-- Claim C2 (code bug evidence). The coercion chain of the source handles
only eth, string and number; the documented argTypes int, hex and boolean
fall through unmodified. In particular an `int`-instructed decoded value
stays the hex string `0x0f` (decimal value 15) instead of the decimal
string `15` the documentation promises. -/
theorem argType_int_hex_boolean_passthrough :
    coerceArgValue { isDistinctId := none, argType := some "int" } (Value.str "0x0f")
        = some (Value.str "0x0f")
    ∧ Value.str "0x0f" ≠ Value.str "15"
    ∧ coerceArgValue { isDistinctId := none, argType := some "hex" } (Value.str "0x0f")
        = some (Value.str "0x0f")
    ∧ coerceArgValue { isDistinctId := none, argType := some "boolean" } (Value.bool true)
        = some (Value.bool true)
    ∧ bigNumberFrom (Value.str "0x0f") = some 15 := by
  decide

/-- Claim C3, counterexample. A log whose first topic matches no fragment is
not skipped silently: the cycle records one caught-and-logged error for it
(the claim asserts zero raised errors), while indeed emitting no record. -/
theorem unknownTopic_error_logged_cex :
    (runEveryMinute envC3 ifaceEmpty none stC3).loopState.captures = []
    ∧ (runEveryMinute envC3 ifaceEmpty none stC3).loopState.errors = 1
    ∧ ¬ ((runEveryMinute envC3 ifaceEmpty none stC3).loopState.errors = 0) := by
  refine ⟨rfl, by decide, by decide⟩

/-- Claim C3, amended. For a RawLog whose first topic matches no fragment or
an anonymous one, parseLog yields null and the log contributes no record to
the sink; however the null result makes the per-log body throw, so the catch
logs one error per such log (not a silent skip), the loop continues and the
cycle still completes. -/
theorem unknownTopic_dropped_but_error_counted :
    (∀ (ci : Interface) (instrs : Option EventParsingInstruction) (bt : Int) (log : RawLog),
        (ci.getEvent (headTopic log) = none
          ∨ ∃ f, ci.getEvent (headTopic log) = some f ∧ f.anonymous = true) →
        parseLog ci log = none ∧ processLog ci instrs bt log = none)
    ∧ (∀ (env : ProviderEnv) (ci : Interface) (instrs : Option EventParsingInstruction)
          (st : PluginState),
        (∀ l ∈ logsOf env st, (env.getBlock l.blockHash).isSome = true) →
        (runEveryMinute env ci instrs st).loopState.errors
            = ((logsOf env st).filter (fun l => (emittedOf env ci instrs l).isNone)).length
        ∧ (runEveryMinute env ci instrs st).completed = true) := by
  constructor
  · intro ci instrs bt log hno
    have hpl : parseLog ci log = none := by
      rcases hno with h | ⟨f, hf, hanon⟩
      · rw [parseLog, h]
      · simp [parseLog, hf, hanon]
    exact ⟨hpl, by rw [processLog, hpl]⟩
  · intro env ci instrs st hts
    have h := runEveryMinute_ok env ci instrs st hts
    exact ⟨h.2.2.2.2.2.2.1, h.1⟩

/-- Claim C3, witness for the amended theorem at a concrete unknown-topic
log: zero emitted records but one logged error in the cycle. -/
theorem unknownTopic_dropped_witness :
    (ifaceEmpty.getEvent (headTopic logC3) = none
      ∨ ∃ f, ifaceEmpty.getEvent (headTopic logC3) = some f ∧ f.anonymous = true)
    ∧ parseLog ifaceEmpty logC3 = none
    ∧ processLog ifaceEmpty none 7 logC3 = none
    ∧ (runEveryMinute envC3 ifaceEmpty none stC3).loopState.errors = 1 := by
  have h1 := unknownTopic_dropped_but_error_counted.1 ifaceEmpty none 7 logC3 (Or.inl rfl)
  have h2 := (unknownTopic_dropped_but_error_counted.2 envC3 ifaceEmpty none stC3 (by decide)).1
  refine ⟨Or.inl rfl, h1.1, h1.2, ?_⟩
  rw [h2]
  decide

/-- Claim C4. If every block timestamp resolves, the cycle always completes:
the checkpoint is written (once, after the loop) to the head queried at the
start of the cycle, and the captures are exactly the pointwise contributions
of the logs — each log that survives decode, transform and sink emits its
record regardless of how many other logs in the window failed. -/
theorem perLogFailure_isolated_checkpoint_advances
    (env : ProviderEnv) (ci : Interface) (instrs : Option EventParsingInstruction)
    (st : PluginState)
    (hts : ∀ l ∈ logsOf env st, (env.getBlock l.blockHash).isSome = true) :
    (runEveryMinute env ci instrs st).completed = true
    ∧ (runEveryMinute env ci instrs st).newState.lastIngestedBlockNumber
        = some env.latestBlockNumber
    ∧ (runEveryMinute env ci instrs st).loopState.captures
        = (logsOf env st).filterMap (emittedOf env ci instrs) := by
  have h := runEveryMinute_ok env ci instrs st hts
  exact ⟨h.1, h.2.1, h.2.2.2.2.2.1⟩

/-- Claim C4 witness: a window with one failing and one succeeding log. -/
theorem perLogFailure_isolated_witness :
    (∀ l ∈ logsOf envC4 stC4, (envC4.getBlock l.blockHash).isSome = true)
    ∧ ((runEveryMinute envC4 ifaceC4 none stC4).completed = true
      ∧ (runEveryMinute envC4 ifaceC4 none stC4).newState.lastIngestedBlockNumber
          = some envC4.latestBlockNumber
      ∧ (runEveryMinute envC4 ifaceC4 none stC4).loopState.captures
          = (logsOf envC4 stC4).filterMap (emittedOf envC4 ifaceC4 none)) :=
  ⟨by decide, perLogFailure_isolated_checkpoint_advances envC4 ifaceC4 none stC4 (by decide)⟩

/-- Claim C5. A successfully decoded log keeps only named arguments: no key
of `namedArgs` is a positional index key, no BigNumber survives as a native
big value, every kept BigNumber argument reappears as its hex-string
rendering, and that rendering is a `0x`-prefixed hexadecimal string. -/
theorem parseLog_namedArgs_named_and_hex
    (ci : Interface) (log : RawLog) (d : DecodedEvent)
    (hparse : parseLog ci log = some d) :
    (∀ kv ∈ d.namedArgs, isIndexKey kv.1 = false ∧ ∀ n : Int, kv.2 ≠ Value.big n)
    ∧ (∀ f, ci.getEvent (headTopic log) = some f →
        ∀ (k : String) (n : Int),
          (k, Value.big n) ∈ ci.decodeEventLog f log.data log.topics →
          parseIntIsNaN k = true →
          (k, Value.str (toHexStringInt n)) ∈ d.namedArgs)
    ∧ (∀ m : Nat, isHexValueString (toHexString m) = true) := by
  cases hge : ci.getEvent (headTopic log) with
  | none =>
    simp only [parseLog, hge] at hparse
    exact Option.noConfusion hparse
  | some f =>
    simp only [parseLog, hge] at hparse
    by_cases hanon : f.anonymous = true
    · rw [if_pos hanon] at hparse; exact Option.noConfusion hparse
    · rw [if_neg hanon] at hparse
      have hd := (Option.some.inj hparse).symm
      subst hd
      refine ⟨?_, ?_, fun m => toHexString_hexValueString m⟩
      · intro kv hkv
        simp only [List.mem_map] at hkv
        obtain ⟨kv2, hkv2, rfl⟩ := hkv
        have hnan : parseIntIsNaN kv2.1 = true := by
          have := List.mem_filter.mp hkv2
          exact this.2
        refine ⟨parseIntIsNaN_not_index _ hnan, ?_⟩
        intro n
        cases kv2 with
        | mk k2 v2 => cases v2 <;> simp [hexifyBigNumber]
      · intro f2 hf2 k n hmem hnan
        have hff : f2 = f := (Option.some.inj hf2).symm
        subst hff
        have hmemf : (k, Value.big n) ∈
            (ci.decodeEventLog f2 log.data log.topics).filter
              (fun kv => parseIntIsNaN kv.1) :=
          List.mem_filter.mpr ⟨hmem, hnan⟩
        have hmap := List.mem_map_of_mem (fun kv => (kv.1, hexifyBigNumber kv.2)) hmemf
        simpa [hexifyBigNumber] using hmap

/-- Claim C5 witness: a decode result mixing index keys and named keys with
a BigNumber value; only the named keys survive and the BigNumber becomes
its hex string. -/
theorem parseLog_named_hex_witness :
    parseLog ifaceC5 logC5 = some decodedC5
    ∧ isIndexKey "to" = false
    ∧ ("amount", Value.str (toHexStringInt 5)) ∈ decodedC5.namedArgs := by
  have hp : parseLog ifaceC5 logC5 = some decodedC5 := by decide
  have h := parseLog_namedArgs_named_and_hex ifaceC5 logC5 decodedC5 hp
  refine ⟨hp, ?_, ?_⟩
  · exact (h.1 ("to", Value.str "0xabc") (by decide)).1
  · exact h.2.1 fragC5 (by decide) "amount" 5 (by decide) (by decide)

/-- Claim C6. The eth coercion is formatEther after BigNumber.from: applied
to the hex-string form every decoded integer takes, it renders the value
divided by 10^18 as a decimal string; exact multiples of 10^18 render as the
quotient with fraction 0, and 1500000000000000000 renders as 1.5. -/
theorem eth_coercion_divides_by_wei :
    (∀ n : Nat, coerceArgValue { isDistinctId := none, argType := some "eth" }
        (Value.str (toHexString n)) = some (Value.str (formatEther (Int.ofNat n))))
    ∧ (∀ i : Int, coerceArgValue { isDistinctId := none, argType := some "eth" }
        (Value.big i) = some (Value.str (formatEther i)))
    ∧ (∀ n : Nat, formatEther ((n : Int) * 10 ^ 18) = Nat.repr n ++ ".0")
    ∧ formatEther 1500000000000000000 = "1.5" := by
  refine ⟨?_, fun i => rfl, formatEther_wei, by decide⟩
  intro n
  rw [coerceArgValue]
  simp only [show (("eth" : String) == "") = false from rfl,
    show (("eth" : String) == "eth") = true from rfl, Bool.false_eq_true, if_false, if_true]
  rw [bigNumberFrom_toHexString]
  rfl

/-- Claim C7. Processing an argument whose instruction marks isDistinctId
sets distinct_id to the coerced value and writes the same coerced value
under the argument name. -/
theorem distinctId_set_to_coerced_value
    (inst : ArgInstruction) (argName : String) (v coerced : Value) (d : JsMap)
    (hid : inst.isDistinctId = some true)
    (hco : coerceArgValue inst v = some coerced) :
    ∃ d2, applyArgInstruction inst argName v d = some d2
      ∧ d2 "distinct_id" = some coerced ∧ d2 argName = some coerced := by
  refine ⟨JsMap.set (JsMap.set d "distinct_id" coerced) argName coerced, ?_, ?_, ?_⟩
  · rw [applyArgInstruction, hco, hid]
    rfl
  · by_cases h : ("distinct_id" : String) = argName
    · simp [JsMap.set, h]
    · simp [JsMap.set, h]
  · simp [JsMap.set]

/-- Claim C7 witness at a concrete uncoerced argument. -/
theorem distinctId_witness :
    instC7.isDistinctId = some true
    ∧ coerceArgValue instC7 (Value.str "0xabc") = some (Value.str "0xabc")
    ∧ ∃ d2, applyArgInstruction instC7 "to" (Value.str "0xabc") JsMap.empty = some d2
        ∧ d2 "distinct_id" = some (Value.str "0xabc")
        ∧ d2 "to" = some (Value.str "0xabc") :=
  ⟨rfl, rfl,
    distinctId_set_to_coerced_value instC7 "to" (Value.str "0xabc") (Value.str "0xabc")
      JsMap.empty rfl rfl⟩

/-- Claim C8. The cycle starts from an empty timestamp cache (the cache is a
local of runEveryMinute, never part of the persisted PluginState), so for
every block hash occurring among the fetched logs exactly one getBlock call
reaches the provider, and zero for hashes not in the window — in any cycle,
whatever persisted state it starts from. -/
theorem one_timestamp_fetch_per_blockHash
    (env : ProviderEnv) (ci : Interface) (instrs : Option EventParsingInstruction)
    (st : PluginState) (h : String)
    (hts : ∀ l ∈ logsOf env st, (env.getBlock l.blockHash).isSome = true) :
    countOcc h (runEveryMinute env ci instrs st).loopState.fetched
      = if h ∈ (logsOf env st).map (fun l => l.blockHash) then 1 else 0 := by
  have hm := runEveryMinute_ok env ci instrs st hts
  rw [hm.2.2.2.2.2.2.2, countOcc_newFetches]
  simp

/-- Claim C8 witness: three logs over two distinct hashes trigger exactly
one fetch for the duplicated hash. -/
theorem one_fetch_witness :
    (∀ l ∈ logsOf envC8 stC8, (envC8.getBlock l.blockHash).isSome = true)
    ∧ countOcc "0xh1" (runEveryMinute envC8 ifaceEmpty none stC8).loopState.fetched = 1 := by
  refine ⟨by decide, ?_⟩
  have h := one_timestamp_fetch_per_blockHash envC8 ifaceEmpty none stC8 "0xh1" (by decide)
  rw [h]
  decide

/-- Claim C9. The getBlock call sits outside the per-log try/catch: if it
rejects for any log of the window, the whole cycle aborts and the checkpoint
is left exactly as it was — unlike decode, transform and sink failures,
which are caught per log. -/
theorem getBlock_failure_aborts_without_checkpoint
    (env : ProviderEnv) (ci : Interface) (instrs : Option EventParsingInstruction)
    (st : PluginState)
    (hab : ∃ l ∈ logsOf env st, env.getBlock l.blockHash = none) :
    (runEveryMinute env ci instrs st).completed = false
    ∧ (runEveryMinute env ci instrs st).newState.lastIngestedBlockNumber
        = st.lastIngestedBlockNumber := by
  obtain ⟨ls, hrun⟩ := runLoop_abort env ci instrs (logsOf env st)
    { blockTimestamps := [], fetched := [], captures := [], errors := 0 } hab (by simp)
  have hrun2 : runLoop env ci instrs
      (env.getLogs (computeBlockNumberToIngestFrom st env.latestBlockNumber)
        env.latestBlockNumber)
      { blockTimestamps := [], fetched := [], captures := [], errors := 0 }
      = Except.error ls := hrun
  simp only [runEveryMinute]
  rw [hrun2]
  exact ⟨rfl, rfl⟩

/-- Claim C9 witness: a single log whose block lookup rejects aborts the
cycle with the stored checkpoint untouched. -/
theorem getBlock_failure_witness :
    (∃ l ∈ logsOf envC9 stC9, envC9.getBlock l.blockHash = none)
    ∧ (runEveryMinute envC9 ifaceEmpty none stC9).completed = false
    ∧ (runEveryMinute envC9 ifaceEmpty none stC9).newState.lastIngestedBlockNumber
        = some 3 := by
  have h := getBlock_failure_aborts_without_checkpoint envC9 ifaceEmpty none stC9 (by decide)
  exact ⟨by decide, h.1, by rw [h.2]; rfl⟩

/-- Claim C10. The named arguments are spread after the seeded base fields,
so a decoded argument named blockNumber, blockHash or timestamp overwrites
the seeded value (its last binding wins); only when no such argument exists
does the seeded value survive. -/
theorem namedArgs_override_seeded_base_fields
    (bt : Int) (log : RawLog) (args : List (String × Value)) :
    (∀ v, lastAssoc args "blockNumber" = some v →
        buildEventData bt log args "blockNumber" = some v)
    ∧ (∀ v, lastAssoc args "blockHash" = some v →
        buildEventData bt log args "blockHash" = some v)
    ∧ (∀ v, lastAssoc args "$timestamp" = some v →
        buildEventData bt log args "$timestamp" = some v)
    ∧ (lastAssoc args "blockNumber" = none →
        buildEventData bt log args "blockNumber" = some (Value.num log.blockNumber)) := by
  refine ⟨?_, ?_, ?_, ?_⟩
  · intro v hv
    rw [buildEventData, foldl_set_lookup]
    rw [lastAssoc] at hv
    rw [hv]
  · intro v hv
    rw [buildEventData, foldl_set_lookup]
    rw [lastAssoc] at hv
    rw [hv]
  · intro v hv
    rw [buildEventData, foldl_set_lookup]
    rw [lastAssoc] at hv
    rw [hv]
  · intro hv
    rw [buildEventData, foldl_set_lookup]
    rw [lastAssoc] at hv
    rw [hv]
    simp [JsMap.set]

/-- Claim C10 witness: a decoded argument named blockNumber replaces the
seeded block number in the record. -/
theorem namedArgs_override_witness :
    lastAssoc [("blockNumber", Value.num 99)] "blockNumber" = some (Value.num 99)
    ∧ buildEventData 7 logC10 [("blockNumber", Value.num 99)] "blockNumber"
        = some (Value.num 99) :=
  ⟨by decide,
    (namedArgs_override_seeded_base_fields 7 logC10 [("blockNumber", Value.num 99)]).1
      (Value.num 99) (by decide)⟩
